import Mathlib

/-!
Verification development for the bank-statement transaction parser
(`finance_manager.py`).  Strings are modelled as lists of characters
(`Str`); machine floats are modelled as exact rationals (the amounts the
program handles are small decimal literals, for which double rounding is
exact and irrelevant to the properties below; overflow/underflow of huge
exponents is likewise out of scope).  Digits are modelled as ASCII digits
(Python additionally accepts non-ASCII Unicode digits in `float` and
`strptime`; statement text is ASCII).
-/

set_option maxRecDepth 100000

/-- Strings of the program, modelled as lists of characters. -/
abbrev Str := List Char

/-- Convert a Lean string literal to the model type. -/
def lit (s : String) : Str := s.data

/-- Python whitespace for `str.strip` / `str.split` / regex `\s`
(ASCII fragment): space, tab, newline, carriage return, vertical tab,
form feed. -/
def pyIsSpace (c : Char) : Bool :=
  decide (c = ' ' ∨ c = '\t' ∨ c = '\n' ∨ c = '\r' ∨ c = '\x0b' ∨ c = '\x0c')

/-- Model of Python `str.strip()`: drop whitespace from both ends. -/
def pyStrip (s : Str) : Str :=
  ((s.dropWhile pyIsSpace).reverse.dropWhile pyIsSpace).reverse

/-- Helper for `pySplit`: accumulates the current (reversed) token. -/
def pySplitAux : Str → Str → List Str
  | [], [] => []
  | [], acc => [acc.reverse]
  | c :: cs, acc =>
    if pyIsSpace c then
      match acc with
      | [] => pySplitAux cs []
      | _ :: _ => acc.reverse :: pySplitAux cs []
    else pySplitAux cs (c :: acc)

/-- Model of Python `str.split()` with no argument: split on runs of
whitespace, discarding empty tokens. -/
def pySplit (s : Str) : List Str := pySplitAux s []

/-- Model of Python `str.split(sep)` for a one-character separator
(used for `text.split('\n')` and for the `/` fields of a date token):
keeps empty fields. -/
def splitOnChar (sep : Char) : Str → List Str
  | [] => [[]]
  | c :: cs =>
    if c = sep then [] :: splitOnChar sep cs
    else
      match splitOnChar sep cs with
      | [] => [[c]]
      | t :: ts => (c :: t) :: ts

/-- Helper for `collapseWs`: the flag records whether the previous
character was whitespace (so a run emits a single space). -/
def collapseAux : Bool → Str → Str
  | _, [] => []
  | prevSpace, c :: cs =>
    if pyIsSpace c then
      if prevSpace then collapseAux true cs else ' ' :: collapseAux true cs
    else c :: collapseAux false cs

/-- Model of `re.sub(r'\s+', ' ', text)`: every maximal run of whitespace
becomes a single space. -/
def collapseWs (s : Str) : Str := collapseAux false s

/-- Source `clean_description`: collapse whitespace runs, then strip. -/
def clean_description (text : Str) : Str := pyStrip (collapseWs text)

/-- Model of Python `" ".join(parts)`. -/
def joinSp : List Str → Str
  | [] => []
  | [t] => t
  | t :: ts => t ++ ' ' :: joinSp ts

/-- Model of Python `needle in hay` substring containment. -/
def containsSub (needle : Str) : Str → Bool
  | [] => needle.isEmpty
  | c :: cs => needle.isPrefixOf (c :: cs) || containsSub needle cs

/-- Numeric value of a string of ASCII digits. -/
def digitsToNat (ds : Str) : Nat :=
  ds.foldl (fun n c => 10 * n + (c.toNat - 48)) 0

/-- Gregorian leap-year rule used by `datetime`. -/
def isLeap (y : Nat) : Bool := (y % 4 == 0) && (y % 100 != 0 || y % 400 == 0)

/-- Days in a month, as validated by the `datetime` constructor. -/
def daysInMonth (m y : Nat) : Nat :=
  if m = 2 then (if isLeap y then 29 else 28)
  else if m = 4 ∨ m = 6 ∨ m = 9 ∨ m = 11 then 30
  else 31

/-- The `%m` field of `strptime`: one or two digits, value 1..12. -/
def monthOk (m : Str) : Bool :=
  !m.isEmpty && decide (m.length ≤ 2) && m.all Char.isDigit
    && decide (1 ≤ digitsToNat m) && decide (digitsToNat m ≤ 12)

/-- The `%d` field of `strptime` plus the `datetime` day-range check:
one or two digits, 1 ≤ value ≤ days in the month. -/
def dayOk (d : Str) (m y : Nat) : Bool :=
  !d.isEmpty && decide (d.length ≤ 2) && d.all Char.isDigit
    && decide (1 ≤ digitsToNat d) && decide (digitsToNat d ≤ daysInMonth m y)

/-- The `%Y` field of `strptime`: exactly four digits, and `datetime`
requires year ≥ 1. -/
def yearOk (y : Str) : Bool :=
  decide (y.length = 4) && y.all Char.isDigit && decide (1 ≤ digitsToNat y)

/-- Model of `datetime.strptime(tok, "%m/%d/%Y")` succeeding: the token is
exactly month `/` day `/` year with the three field checks above (the
`strptime` regex consumes at most two digits for `%m`/`%d` and exactly four
for `%Y`, and requires the whole token to be consumed). -/
def validDate (tok : Str) : Bool :=
  match splitOnChar '/' tok with
  | [m, d, y] => monthOk m && dayOk d (digitsToNat m) (digitsToNat y) && yearOk y
  | _ => false

/-- Characters allowed inside a digit run of a Python numeric literal:
digits and the PEP-515 underscore separator. -/
def duChar (c : Char) : Bool := c.isDigit || c == '_'

/-- No two consecutive underscores in a digit run. -/
def noUU : Str → Bool
  | [] => true
  | [_] => true
  | c :: d :: rest => !(c == '_' && d == '_') && noUU (d :: rest)

/-- A valid digit run for Python `float()`: nonempty, starts and ends with
a digit, and underscores appear only singly between digits. -/
def validURun (r : Str) : Bool :=
  (match r.head? with | some c => c.isDigit | none => false)
    && (match r.getLast? with | some c => c.isDigit | none => false)
    && noUU r

/-- Remove the underscore separators from a digit run. -/
def remUU (r : Str) : Str := r.filter (fun c => !(c == '_'))

/-- Value of a Python `float()` call, modelled exactly: a finite decimal
is kept as an exact rational; infinities and nan are kept symbolically. -/
inductive PyNum where
  | num (q : ℚ)
  | inf (neg : Bool)
  | nan
deriving DecidableEq, Repr

/-- Exact rational value of a decimal literal: `sign mant * 10 ^ (exp - fracLen)`. -/
def mkNumVal (neg : Bool) (mant fracLen : Nat) (eneg : Bool) (expv : Nat) : ℚ :=
  let esigned : Int := (if eneg then -(expv : Int) else (expv : Int)) - (fracLen : Int)
  let base : ℚ :=
    if 0 ≤ esigned then mkRat ((mant : Int) * ((10 ^ esigned.toNat : Nat) : Int)) 1
    else mkRat (mant : Int) (10 ^ (-esigned).toNat)
  if neg then -base else base

/-- Parse the optional exponent suffix of a Python float literal; `intDs`
and `fracDs` are the already-validated mantissa digits. -/
def parseExpPart (neg : Bool) (intDs fracDs : Str) (rest : Str) : Option PyNum :=
  match rest with
  | [] => some (PyNum.num (mkNumVal neg (digitsToNat (intDs ++ fracDs)) fracDs.length false 0))
  | e :: r4 =>
    if e == 'e' || e == 'E' then
      let (eneg, r5) :=
        match r4 with
        | '+' :: t => (false, t)
        | '-' :: t => (true, t)
        | t => (false, t)
      let erun := r5.takeWhile duChar
      let r6 := r5.dropWhile duChar
      if validURun erun && r6.isEmpty then
        some (PyNum.num (mkNumVal neg (digitsToNat (intDs ++ fracDs)) fracDs.length eneg
          (digitsToNat (remUU erun))))
      else none
    else none

/-- Parse the digits of a finite Python float literal (sign already
consumed): `digits [. digits] [exponent]`, `. digits [exponent]`, with
PEP-515 underscores validated per digit run. -/
def parseFiniteFloat (neg : Bool) (s : Str) : Option PyNum :=
  let irun := s.takeWhile duChar
  let r1 := s.dropWhile duChar
  match r1 with
  | '.' :: r2 =>
    let frun := r2.takeWhile duChar
    let r3 := r2.dropWhile duChar
    if (if irun.isEmpty then !frun.isEmpty else validURun irun)
        && (frun.isEmpty || validURun frun) then
      parseExpPart neg (remUU irun) (remUU frun) r3
    else none
  | _ =>
    if !irun.isEmpty && validURun irun then parseExpPart neg (remUU irun) [] r1
    else none

/-- ASCII lowercase for matching `inf` / `infinity` / `nan`. -/
def toLowerStr (s : Str) : Str := s.map Char.toLower

/-- Model of Python `float(s)` on a string: optional surrounding
whitespace, optional sign, then a finite literal or (case-insensitively)
`inf` / `infinity` / `nan`; `none` models `ValueError`. -/
def parseFloatPy (s0 : Str) : Option PyNum :=
  let s1 := pyStrip s0
  let signSplit : Bool × Str :=
    match s1 with
    | '+' :: t => (false, t)
    | '-' :: t => (true, t)
    | t => (false, t)
  let neg := signSplit.1
  let s2 := signSplit.2
  let ls := toLowerStr s2
  if ls == lit "inf" || ls == lit "infinity" then some (PyNum.inf neg)
  else if ls == lit "nan" then some PyNum.nan
  else parseFiniteFloat neg s2

/-- The source's inline `float(tok.replace("$", "").replace(",", ""))`:
removing every `$` and `,` character, then parsing. -/
def stripMoney (s : Str) : Str := s.filter (fun c => !(c == '$') && !(c == ','))

/-- Parse one amount column as the source does. -/
def parseMoney (s : Str) : Option PyNum := parseFloatPy (stripMoney s)

/-- Source `starts_with_valid_date`: tokenize; empty → False; otherwise
the first token must parse with `strptime(.., "%m/%d/%Y")`. -/
def starts_with_valid_date (line : Str) : Bool :=
  match pySplit (pyStrip line) with
  | [] => false
  | t :: _ => validDate t

/-- Source `extract_amounts`: fewer than 5 whitespace tokens → `(None,
None)`; otherwise parse the third-from-last and second-from-last tokens
(stripping `$` and `,`); if either parse fails, `(None, None)`. -/
def extract_amounts (line : Str) : Option PyNum × Option PyNum :=
  if (pySplit (pyStrip line)).length < 5 then (none, none)
  else
    match parseMoney ((pySplit (pyStrip line)).getD ((pySplit (pyStrip line)).length - 3) []),
          parseMoney ((pySplit (pyStrip line)).getD ((pySplit (pyStrip line)).length - 2) []) with
    | some c, some d => (some c, some d)
    | _, _ => (none, none)

/-- Source `is_valid_transaction`: date-shaped first token AND both
amounts extracted. -/
def is_valid_transaction (line : Str) : Bool :=
  starts_with_valid_date line
    && (extract_amounts line).1.isSome && (extract_amounts line).2.isSome

/-- Fuel-based model of Python `str.split(sep)` for a nonempty separator
string: split at each non-overlapping occurrence, left to right, keeping
empty fields.  The fuel is the length of the scanned string; each step
consumes at least one character, so fuel never runs out when initialised
with the string's length. -/
def pySplitSepFuel (sep : Str) : Nat → Str → Str → List Str
  | _, [], acc => [acc.reverse]
  | 0, s, acc => [acc.reverse ++ s]
  | fuel + 1, c :: cs, acc =>
    if sep.isPrefixOf (c :: cs) then
      acc.reverse :: pySplitSepFuel sep fuel (cs.drop (sep.length - 1)) []
    else pySplitSepFuel sep fuel cs (c :: acc)

/-- Model of Python `str.split(sep)` for a nonempty separator. -/
def pySplitSep (sep s : Str) : List Str := pySplitSepFuel sep s.length s []

/-- The literal label scanned for by the account tracker. -/
def acctLabel : Str := lit "Account Number:"

/-- The scanning loop of `extract_account_name_number`: the first line
containing the label whose text after the first label occurrence has a
first whitespace token yields that token; otherwise keep scanning. -/
def extractAccountGo : List Str → Option Str
  | [] => none
  | l :: ls =>
    if containsSub acctLabel l then
      match pySplit (pyStrip ((pySplitSep acctLabel l).getD 1 [])) with
      | p :: _ => some p
      | [] => extractAccountGo ls
    else extractAccountGo ls

/-- Source `extract_account_name_number`: scan only the first 15 lines of
the page (`lines[:15]`). -/
def extract_account_name_number (lines : List Str) : Option Str :=
  extractAccountGo (lines.take 15)

/-- The output record of the assembler (the dict built in
`parse_ally_statement`, keys Date, Description, Credit, Debit,
Account_Number, Source_File). -/
structure TransactionRecord where
  date : Str
  description : Str
  credit : Option PyNum
  debit : Option PyNum
  account_number : Str
  source_file : Str
deriving DecidableEq, Repr

/-- The continuation-line marker `"Ending Balance"`. -/
def endingBalanceMarker : Str := lit "Ending Balance"

/-- Model of `re.match(r'^\d{6}/', line)` being truthy: the line starts
with six digits followed by a slash. -/
def matchesFooterRegex (line : Str) : Bool :=
  (line.take 6).all Char.isDigit && decide ((line.take 6).length = 6)
    && decide ((line.drop 6).head? = some '/')

/-- The record built from a start line: date is the first token, the
description is the tokens strictly between the date and the last three
tokens (`parts[1:-3]`) joined and normalized, the amounts come from
`extract_amounts`, and the account number is the tracker's current
value. -/
def mkRecord (pdf acct line : Str) : TransactionRecord :=
  { date := (pySplit (pyStrip line)).headD [],
    description := clean_description (joinSp
      (((pySplit (pyStrip line)).take ((pySplit (pyStrip line)).length - 3)).drop 1)),
    credit := (extract_amounts line).1,
    debit := (extract_amounts line).2,
    account_number := acct,
    source_file := pdf }

/-- One step of the Record Assembler state machine: the state is the open
record (if any) together with the output collection.  A start line flushes
the open record and opens a new one; otherwise, with a record open, the
`"Ending Balance"` marker and the raw-line footer pattern are discarded,
a stripped line of more than one character is appended to the description
(renormalizing), and anything else is discarded. -/
def stepLine (pdf acct : Str) (st : Option TransactionRecord × List TransactionRecord)
    (line : Str) : Option TransactionRecord × List TransactionRecord :=
  if is_valid_transaction line then
    (some (mkRecord pdf acct line),
     match st.1 with
     | some r => st.2 ++ [r]
     | none => st.2)
  else
    match st.1 with
    | none => st
    | some r =>
      if containsSub endingBalanceMarker line then st
      else if matchesFooterRegex line then st
      else if 1 < (pyStrip line).length then
        (some { r with description :=
                  clean_description (r.description ++ ' ' :: pyStrip line) }, st.2)
      else st

/-- Process one page's lines: fold the step function starting with no open
record, then flush the still-open record at end of page. -/
def processPage (pdf acct : Str) (trans : List TransactionRecord)
    (lines : List Str) : List TransactionRecord :=
  match lines.foldl (stepLine pdf acct) (none, trans) with
  | (some r, out) => out ++ [r]
  | (none, out) => out

/-- The account-number update at the top of each page:
`if new_account_number and new_account_number != current_account_number`. -/
def updateAcct (current : Str) (found : Option Str) : Str :=
  match found with
  | some a => if a ≠ [] ∧ a ≠ current then a else current
  | none => current

/-- The page loop of `parse_ally_statement`: pages whose extracted text is
`None` or empty are skipped; otherwise the page's lines are
`text.split('\n')`, the tracked account number is updated, and the page is
processed. -/
def parsePages (pdf : Str) : Str → List TransactionRecord → List (Option Str) →
    List TransactionRecord
  | _, out, [] => out
  | acct, out, none :: ps => parsePages pdf acct out ps
  | acct, out, some text :: ps =>
    if text = [] then parsePages pdf acct out ps
    else
      let lines := splitOnChar '\n' text
      let acct2 := updateAcct acct (extract_account_name_number lines)
      parsePages pdf acct2 (processPage pdf acct2 out lines) ps

/-- Source `parse_ally_statement`: a document is its name plus the
per-page extracted text (`none` models `extract_text()` returning
`None`); the tracked account number starts at the sentinel `"Unknown"`
and the output collection starts empty. -/
def parse_ally_statement (pdf_name : Str) (pages : List (Option Str)) :
    List TransactionRecord :=
  parsePages pdf_name (lit "Unknown") [] pages

/-- Fuel-based model of Python `str.replace(old, new)` with nonempty
`old`: replace every non-overlapping occurrence, left to right.  Fuel as
in `pySplitSepFuel`. -/
def pyReplaceFuel (old new : Str) : Nat → Str → Str
  | _, [] => []
  | 0, s => s
  | fuel + 1, c :: cs =>
    if old.isPrefixOf (c :: cs) then
      new ++ pyReplaceFuel old new fuel (cs.drop (old.length - 1))
    else c :: pyReplaceFuel old new fuel cs

/-- Model of `s.replace(old, new)` (for the nonempty keys of the repair
table). -/
def pyReplace (s old new : Str) : Str := pyReplaceFuel old new s.length s

/-- The `BROKEN_WORD_FIXES` repair table, in declaration order (Python
dicts iterate in insertion order). -/
def BROKEN_WORD_FIXES : List (String × String) :=
  [("A ccount", "Account"),
   ("C OSTCO", "COSTCO"),
   ("U S", "US"),
   ("3 65", "365"),
   ("I nterest", "Interest"),
   ("a ccount", "account"),
   ("M INES", "MINES"),
   ("C hecking", "Checking"),
   ("C HIPOTLE", "CHIPOTLE"),
   ("C OCA", "COCA"),
   ("J P", "JP"),
   ("K ING", "KING"),
   ("H IGHWAY", "HIGHWAY"),
   ("H IGHLANDS", "HIGHLANDS"),
   ("B URGER", "BURGER"),
   ("T ACO", "TACO"),
   ("M AVERIK", "MAVERIK"),
   ("S POTIFY", "SPOTIFY"),
   ("S narfs", "Snarfs"),
   ("C ENTER", "CENTER"),
   ("P KWY", "PKWY"),
   ("A venue", "Avenue"),
   ("T hornton", "Thornton"),
   ("J IMMY", "JIMMY"),
   ("C HERRY", "CHERRY"),
   ("S T", "ST"),
   ("T ARGET", "TARGET"),
   ("C OLORADO", "COLORADO"),
   ("R AISING", "RAISING"),
   ("S HELL", "SHELL"),
   ("P eacock", "Peacock"),
   ("R OCKET", "ROCKET"),
   ("C IRCLE", "CIRCLE"),
   ("L EGO", "LEGO"),
   ("U NITED", "UNITED"),
   ("D D", "DD"),
   ("D icks", "Dicks"),
   ("S tore", "Store"),
   ("L akewood", "Lakewood"),
   ("H OLIDAY", "HOLIDAY"),
   ("S NARFS", "SNARFS"),
   ("P ROTON", "PROTON"),
   ("F LYING", "FLYING"),
   ("S avings", "Savings"),
   ("S TARBUCKS", "STARBUCKS"),
   ("M URPHY", "MURPHY"),
   ("O verdraft", "Overdraft"),
   ("S ubway", "Subway"),
   ("S AFEWAY", "SAFEWAY"),
   ("C OLFAX", "C OLFAX"),
   ("A ve.", "Ave."),
   ("S treet", "Street"),
   ("G OLDEN", "GOLDEN"),
   ("M ICRO", "MICRO")]

/-- Source `patch_known_broken_phrases`: apply each repair-table
substitution once, in declaration order. -/
def patch_known_broken_phrases (text : Str) : Str :=
  BROKEN_WORD_FIXES.foldl (fun t bf => pyReplace t bf.1.data bf.2.data) text

/-- Proof-side predicate: the string has at least one non-whitespace
character (used for the non-empty-description invariant). -/
def hasNW (s : Str) : Prop := ∃ c ∈ s, pyIsSpace c = false

/-- Count of an optional open record, for the flush-exactly-once count
argument. -/
def ocount : Option TransactionRecord → Nat
  | some _ => 1
  | none => 0

/-- The example start line of the spec. -/
def coffeeLine : Str := lit "01/15/2024 COFFEE SHOP $4.50 $0.00 $1,200.00"

/-- A second start line, used for flush-order tests. -/
def gasLine : Str := lit "01/16/2024 GAS STATION $10.00 $0.00 $1,190.00"

/-- A small open record used for continuation-line tests. -/
def demoRec : TransactionRecord :=
  { date := lit "01/15/2024", description := lit "X",
    credit := some (PyNum.num 1), debit := some (PyNum.num 0),
    account_number := lit "A", source_file := lit "p.pdf" }

example : validDate (lit "01/15/2024") = true := by decide
example : validDate (lit "1/5/2024") = true := by decide
example : validDate (lit "02/30/2024") = false := by decide
example : validDate (lit "02/29/2024") = true := by decide
example : validDate (lit "02/29/2023") = false := by decide
example : validDate (lit "12/31/999") = false := by decide
example : validDate (lit "123456/02") = false := by decide
example : parseMoney (lit "$1,200.00") = some (PyNum.num 1200) := by decide
example : parseMoney (lit "$4.50") = some (PyNum.num (mkRat 9 2)) := by decide
example : parseMoney (lit "-$4.50") = some (PyNum.num (-mkRat 9 2)) := by decide
example : parseMoney (lit "abc") = none := by decide
example : parseMoney (lit "1_000") = some (PyNum.num 1000) := by decide
example : parseMoney (lit "1_") = none := by decide
example : parseMoney (lit "inf") = some (PyNum.inf false) := by decide
example : pySplit (lit "  a  bb ") = [lit "a", lit "bb"] := by decide
example : clean_description (lit "  multiple   spaces  ") = lit "multiple spaces" := by decide
example : is_valid_transaction (lit "01/15/2024 COFFEE SHOP $4.50 $0.00 $1,200.00") = true := by
  decide
example : extract_amounts (lit "01/15/2024 a b") = (none, none) := by decide
example : pySplitSep (lit "X") (lit "aaXbbXcc") = [lit "aa", lit "bb", lit "cc"] := by decide
example : extract_account_name_number [lit "Account Number: 9876 XX"] = some (lit "9876") := by
  decide
example : extract_account_name_number [lit "no label here"] = none := by decide
example : matchesFooterRegex (lit "123456/02") = true := by decide
example : matchesFooterRegex (lit " 123456/02") = false := by decide
example :
    parse_ally_statement (lit "a.pdf") [some coffeeLine] =
      [{ date := lit "01/15/2024", description := lit "COFFEE SHOP",
         credit := some (PyNum.num (mkRat 9 2)), debit := some (PyNum.num 0),
         account_number := lit "Unknown", source_file := lit "a.pdf" }] := by decide
example :
    processPage (lit "a.pdf") (lit "111") [] [coffeeLine, lit "PURCHASE", gasLine] =
      [{ date := lit "01/15/2024", description := lit "COFFEE SHOP PURCHASE",
         credit := some (PyNum.num (mkRat 9 2)), debit := some (PyNum.num 0),
         account_number := lit "111", source_file := lit "a.pdf" },
       { date := lit "01/16/2024", description := lit "GAS STATION",
         credit := some (PyNum.num 10), debit := some (PyNum.num 0),
         account_number := lit "111", source_file := lit "a.pdf" }] := by decide
example : patch_known_broken_phrases (lit "A ccount Summary") = lit "Account Summary" := by
  decide
example :
    patch_known_broken_phrases (patch_known_broken_phrases (lit "A ccount Summary")) =
      lit "Account Summary" := by decide

/-! Helper lemmas. -/

theorem extract_amounts_short {line : Str} (h : (pySplit (pyStrip line)).length < 5) :
    extract_amounts line = (none, none) := by
  unfold extract_amounts
  rw [if_pos h]

theorem valid_five_tokens {line : Str} (h : is_valid_transaction line = true) :
    5 ≤ (pySplit (pyStrip line)).length := by
  by_contra hlt
  have h5 : (pySplit (pyStrip line)).length < 5 := by omega
  have he := extract_amounts_short h5
  unfold is_valid_transaction at h
  rw [he] at h
  simp at h

theorem valid_amounts_isSome {line : Str} (h : is_valid_transaction line = true) :
    (extract_amounts line).1.isSome = true ∧ (extract_amounts line).2.isSome = true := by
  unfold is_valid_transaction at h
  simp only [Bool.and_eq_true] at h
  exact ⟨h.1.2, h.2⟩

/-- C2: a line is a transaction start iff its first token is a valid
MM/DD/YYYY date and the amount extractor yields both amounts; in
particular an invalid first date token forces a negative classification. -/
theorem C2_classifier_conjunction (line : Str) :
    (is_valid_transaction line
      = (starts_with_valid_date line
          && ((extract_amounts line).1.isSome && (extract_amounts line).2.isSome)))
    ∧ (starts_with_valid_date line = false → is_valid_transaction line = false) := by
  constructor
  · unfold is_valid_transaction
    rw [Bool.and_assoc]
  · intro h
    unfold is_valid_transaction
    rw [h]
    simp

theorem C2_classifier_conjunction_witness :
    is_valid_transaction (lit "hello world one two three") = false :=
  (C2_classifier_conjunction (lit "hello world one two three")).2 (by decide)

/-- C3: with fewer than 5 whitespace tokens the extractor yields
(absent, absent); with at least 5 tokens it yields (absent, absent)
exactly when the third-from-last or second-from-last token fails to parse
as a decimal after stripping dollar signs and commas, and otherwise the
two parsed values as (credit, debit). -/
theorem C3_extract_amounts_contract (line : Str) :
    ((pySplit (pyStrip line)).length < 5 → extract_amounts line = (none, none))
    ∧ (5 ≤ (pySplit (pyStrip line)).length →
        ((parseMoney ((pySplit (pyStrip line)).getD ((pySplit (pyStrip line)).length - 3) []) = none
            ∨ parseMoney ((pySplit (pyStrip line)).getD ((pySplit (pyStrip line)).length - 2) []) = none)
          → extract_amounts line = (none, none))
        ∧ (∀ c d,
            parseMoney ((pySplit (pyStrip line)).getD ((pySplit (pyStrip line)).length - 3) []) = some c →
            parseMoney ((pySplit (pyStrip line)).getD ((pySplit (pyStrip line)).length - 2) []) = some d →
            extract_amounts line = (some c, some d))) := by
  refine ⟨fun h => extract_amounts_short h, fun h5 => ⟨?_, ?_⟩⟩
  · intro hor
    unfold extract_amounts
    rw [if_neg (by omega)]
    rcases h3 : parseMoney ((pySplit (pyStrip line)).getD ((pySplit (pyStrip line)).length - 3) []) with _ | c
    · rfl
    · rcases h2 : parseMoney ((pySplit (pyStrip line)).getD ((pySplit (pyStrip line)).length - 2) []) with _ | d
      · rfl
      · rcases hor with h | h
        · rw [h3] at h; cases h
        · rw [h2] at h; cases h
  · intro c d h3 h2
    unfold extract_amounts
    rw [if_neg (by omega), h3, h2]

theorem C3_extract_amounts_contract_witness :
    extract_amounts (lit "01/15/2024 a b") = (none, none)
    ∧ extract_amounts coffeeLine
        = (some (PyNum.num (mkRat 9 2)), some (PyNum.num 0)) :=
  ⟨(C3_extract_amounts_contract (lit "01/15/2024 a b")).1 (by decide),
   ((C3_extract_amounts_contract coffeeLine).2 (by decide)).2
     (PyNum.num (mkRat 9 2)) (PyNum.num 0) (by decide) (by decide)⟩

/-- C4: the spec's example line is classified as a start line, the
extracted amounts are credit 4.50 and debit 0.00, and the description
assembled from the tokens between the date and the three trailing amount
tokens is COFFEE SHOP. -/
theorem C4_example_line :
    is_valid_transaction coffeeLine = true
    ∧ extract_amounts coffeeLine = (some (PyNum.num (mkRat 9 2)), some (PyNum.num 0))
    ∧ parse_ally_statement (lit "a.pdf") [some coffeeLine]
        = [{ date := lit "01/15/2024", description := lit "COFFEE SHOP",
             credit := some (PyNum.num (mkRat 9 2)), debit := some (PyNum.num 0),
             account_number := lit "Unknown", source_file := lit "a.pdf" }] := by
  refine ⟨by decide, by decide, by decide⟩

/-- C9: applying the repair table in declaration order sends
"A ccount Summary" to "Account Summary", and a second application leaves
that result unchanged. -/
theorem C9_repair_idempotent_on_example :
    patch_known_broken_phrases (lit "A ccount Summary") = lit "Account Summary"
    ∧ patch_known_broken_phrases (patch_known_broken_phrases (lit "A ccount Summary"))
        = patch_known_broken_phrases (lit "A ccount Summary") := by
  refine ⟨by decide, by decide⟩

/-- C6: with a record open, the exact continuation line
"Ending Balance $1,200.00" is discarded, and the footer line "123456/02"
is discarded, leaving the assembler state unchanged (this also holds with
no record open, where every non-start line is discarded); on a concrete
page containing both lines between a start line and the end of the page,
the produced description is exactly COFFEE SHOP, which contains neither
line's text. -/
theorem C6_discard_rules :
    (∀ (pdf acct : Str) (st : Option TransactionRecord × List TransactionRecord),
        stepLine pdf acct st (lit "Ending Balance $1,200.00") = st
        ∧ stepLine pdf acct st (lit "123456/02") = st)
    ∧ processPage (lit "a.pdf") (lit "111") []
        [coffeeLine, lit "Ending Balance $1,200.00", lit "123456/02"]
        = [{ date := lit "01/15/2024", description := lit "COFFEE SHOP",
             credit := some (PyNum.num (mkRat 9 2)), debit := some (PyNum.num 0),
             account_number := lit "111", source_file := lit "a.pdf" }]
    ∧ containsSub (lit "Ending Balance $1,200.00") (lit "COFFEE SHOP") = false
    ∧ containsSub (lit "123456/02") (lit "COFFEE SHOP") = false := by
  refine ⟨?_, by decide, by decide, by decide⟩
  intro pdf acct st
  obtain ⟨cur, out⟩ := st
  constructor
  · have hv : is_valid_transaction (lit "Ending Balance $1,200.00") = false := by decide
    have hc : containsSub endingBalanceMarker (lit "Ending Balance $1,200.00") = true := by
      decide
    cases cur with
    | none => simp [stepLine, hv]
    | some r => simp [stepLine, hv, hc]
  · have hv : is_valid_transaction (lit "123456/02") = false := by decide
    have hc : containsSub endingBalanceMarker (lit "123456/02") = false := by decide
    have hm : matchesFooterRegex (lit "123456/02") = true := by decide
    cases cur with
    | none => simp [stepLine, hv]
    | some r => simp [stepLine, hv, hc, hm]

/-- C5: the account extractor scans only the first 15 lines of a page;
when it returns absent the tracker keeps the previous value; on a page
with the label it returns the first whitespace token after the label; a
label outside the 15-line window is not found; across the pages of one
document the value carries forward, and each document starts from the
sentinel Unknown. -/
theorem C5_account_tracking :
    (∀ lines : List Str,
        extract_account_name_number lines = extract_account_name_number (lines.take 15))
    ∧ (∀ a : Str, updateAcct a none = a)
    ∧ extract_account_name_number [lit "Account Number: 9876 XX"] = some (lit "9876")
    ∧ extract_account_name_number
        (List.replicate 15 (lit "filler") ++ [lit "Account Number: 9876"]) = none
    ∧ (parse_ally_statement (lit "a.pdf")
        [some (lit "Account Number: 9876\n01/15/2024 A B 1 2 3"),
         some (lit "01/16/2024 C D 4 5 6")]).map TransactionRecord.account_number
        = [lit "9876", lit "9876"]
    ∧ (parse_ally_statement (lit "b.pdf")
        [some (lit "01/15/2024 A B 1 2 3")]).map TransactionRecord.account_number
        = [lit "Unknown"] := by
  refine ⟨?_, fun a => rfl, by decide, by decide, by decide, by decide⟩
  intro lines
  simp [extract_account_name_number, List.take_take]

theorem stepLine_count (pdf acct : Str)
    (st : Option TransactionRecord × List TransactionRecord) (line : Str) :
    (stepLine pdf acct st line).2.length + ocount (stepLine pdf acct st line).1
      = st.2.length + ocount st.1 + (if is_valid_transaction line = true then 1 else 0) := by
  obtain ⟨cur, out⟩ := st
  by_cases hv : is_valid_transaction line = true
  · cases cur <;> simp [stepLine, hv, ocount]
  · rw [if_neg hv]
    cases cur with
    | none =>
      simp [stepLine, hv, ocount]
    | some r =>
      simp only [stepLine, hv]
      by_cases hc : containsSub endingBalanceMarker line = true
      · simp [hc, ocount]
      · simp only [Bool.not_eq_true] at hc
        by_cases hm : matchesFooterRegex line = true
        · simp [hc, hm, ocount]
        · simp only [Bool.not_eq_true] at hm
          by_cases hl : 1 < (pyStrip line).length
          · simp [hc, hm, hl, ocount]
          · simp [hc, hm, hl, ocount]

theorem foldl_step_count (pdf acct : Str) : ∀ (lines : List Str)
    (st : Option TransactionRecord × List TransactionRecord),
    (List.foldl (stepLine pdf acct) st lines).2.length
        + ocount (List.foldl (stepLine pdf acct) st lines).1
      = st.2.length + ocount st.1 + lines.countP (fun l => is_valid_transaction l) := by
  intro lines
  induction lines with
  | nil => intro st; simp
  | cons l ls ih =>
    intro st
    have h := stepLine_count pdf acct st l
    simp only [List.foldl_cons, List.countP_cons]
    rw [ih (stepLine pdf acct st l), h]
    by_cases hv : is_valid_transaction l = true
    · simp [hv]
      omega
    · simp [hv]

/-- C1: on any page, the number of records the assembler adds to the
output equals the number of start lines — each start line opens exactly
one record and every open record is flushed exactly once (at the next
start line or at end of page), never duplicated, never dropped.  On the
concrete page start / PURCHASE / start, the first record is flushed
before the second record, with description COFFEE SHOP plus one space
plus PURCHASE, normalized. -/
theorem C1_flush_exactly_once :
    (∀ (pdf acct : Str) (trans : List TransactionRecord) (lines : List Str),
        (processPage pdf acct trans lines).length
          = trans.length + lines.countP (fun l => is_valid_transaction l))
    ∧ processPage (lit "a.pdf") (lit "111") [] [coffeeLine, lit "PURCHASE", gasLine]
        = [{ date := lit "01/15/2024",
             description := clean_description (lit "COFFEE SHOP" ++ ' ' :: lit "PURCHASE"),
             credit := some (PyNum.num (mkRat 9 2)), debit := some (PyNum.num 0),
             account_number := lit "111", source_file := lit "a.pdf" },
           { date := lit "01/16/2024", description := lit "GAS STATION",
             credit := some (PyNum.num 10), debit := some (PyNum.num 0),
             account_number := lit "111", source_file := lit "a.pdf" }]
    ∧ clean_description (lit "COFFEE SHOP" ++ ' ' :: lit "PURCHASE")
        = lit "COFFEE SHOP PURCHASE" := by
  refine ⟨?_, by decide, by decide⟩
  intro pdf acct trans lines
  have h := foldl_step_count pdf acct lines (none, trans)
  unfold processPage
  rcases hfin : List.foldl (stepLine pdf acct) (none, trans) lines with ⟨cur, out⟩
  rw [hfin] at h
  cases cur with
  | none => simp [ocount] at h ⊢; omega
  | some r => simp [ocount] at h ⊢; omega

theorem mem_dropWhile_of_not {p : Char → Bool} {c : Char} :
    ∀ {l : Str}, c ∈ l → p c = false → c ∈ l.dropWhile p := by
  intro l
  induction l with
  | nil => intro hc _; simp at hc
  | cons a as ih =>
    intro hc hp
    rw [List.dropWhile_cons]
    by_cases ha : p a = true
    · rw [if_pos ha]
      rcases List.mem_cons.mp hc with h | h
      · subst h; rw [hp] at ha; cases ha
      · exact ih h hp
    · rw [if_neg ha]
      exact hc

theorem mem_collapseAux {c : Char} (hp : pyIsSpace c = false) :
    ∀ (s : Str) (b : Bool), c ∈ s → c ∈ collapseAux b s := by
  intro s
  induction s with
  | nil => intro b h; simp at h
  | cons a as ih =>
    intro b h
    rcases List.mem_cons.mp h with h1 | h1
    · subst h1
      simp only [collapseAux]
      rw [if_neg (by rw [hp]; exact Bool.false_ne_true)]
      exact List.mem_cons_self c _
    · simp only [collapseAux]
      by_cases ha : pyIsSpace a = true
      · rw [if_pos ha]
        cases b with
        | true => exact ih true h1
        | false => exact List.mem_cons_of_mem _ (ih true h1)
      · rw [if_neg ha]
        exact List.mem_cons_of_mem _ (ih false h1)

theorem mem_pyStrip {c : Char} (hp : pyIsSpace c = false) {s : Str} (h : c ∈ s) :
    c ∈ pyStrip s := by
  unfold pyStrip
  have h1 : c ∈ s.dropWhile pyIsSpace := mem_dropWhile_of_not h hp
  have h2 : c ∈ (s.dropWhile pyIsSpace).reverse := List.mem_reverse.mpr h1
  exact List.mem_reverse.mpr (mem_dropWhile_of_not h2 hp)

theorem hasNW_clean {s : Str} (h : hasNW s) : hasNW (clean_description s) := by
  obtain ⟨c, hc, hp⟩ := h
  exact ⟨c, mem_pyStrip hp (mem_collapseAux hp s false hc), hp⟩

theorem hasNW_ne_nil {s : Str} (h : hasNW s) : s ≠ [] := by
  obtain ⟨c, hc, _⟩ := h
  exact List.ne_nil_of_mem hc

theorem hasNW_append_left {s t : Str} (h : hasNW s) : hasNW (s ++ t) := by
  obtain ⟨c, hc, hp⟩ := h
  exact ⟨c, List.mem_append_left t hc, hp⟩

theorem pySplitAux_tokens : ∀ (s acc : Str), (∀ c ∈ acc, pyIsSpace c = false) →
    ∀ t ∈ pySplitAux s acc, t ≠ [] ∧ ∀ c ∈ t, pyIsSpace c = false := by
  intro s
  induction s with
  | nil =>
    intro acc hacc t ht
    cases acc with
    | nil => simp [pySplitAux] at ht
    | cons a as =>
      simp only [pySplitAux] at ht
      rcases List.mem_singleton.mp ht with h
      subst h
      refine ⟨by simp, ?_⟩
      intro c hc
      exact hacc c (List.mem_reverse.mp hc)
  | cons ch cs ih =>
    intro acc hacc t ht
    simp only [pySplitAux] at ht
    by_cases h : pyIsSpace ch = true
    · rw [if_pos h] at ht
      cases acc with
      | nil => exact ih [] (by simp) t ht
      | cons a as =>
        rcases List.mem_cons.mp ht with h1 | h1
        · subst h1
          refine ⟨by simp, ?_⟩
          intro c hc
          exact hacc c (List.mem_reverse.mp hc)
        · exact ih [] (by simp) t h1
    · rw [if_neg h] at ht
      refine ih (ch :: acc) ?_ t ht
      intro c hc
      rcases List.mem_cons.mp hc with h1 | h1
      · subst h1; exact Bool.not_eq_true _ ▸ (by simpa using h)
      · exact hacc c h1

theorem pySplit_tokens (s : Str) : ∀ t ∈ pySplit s, t ≠ [] ∧ ∀ c ∈ t, pyIsSpace c = false :=
  pySplitAux_tokens s [] (by simp)

theorem mem_joinSp {c : Char} : ∀ (l : List Str) (t : Str), t ∈ l → c ∈ t → c ∈ joinSp l := by
  intro l
  induction l with
  | nil => intro t ht; simp at ht
  | cons a as ih =>
    intro t ht hc
    rcases List.mem_cons.mp ht with h | h
    · subst h
      cases as with
      | nil => simpa [joinSp] using hc
      | cons b bs => exact List.mem_append_left _ hc
    · cases as with
      | nil => simp at h
      | cons b bs =>
        exact List.mem_append_right _ (List.mem_cons_of_mem _ (ih t h hc))

theorem mkRecord_description_hasNW {line : Str} (pdf acct : Str)
    (h : is_valid_transaction line = true) : hasNW (mkRecord pdf acct line).description := by
  have h5 := valid_five_tokens h
  have hmidlen :
      0 < (((pySplit (pyStrip line)).take ((pySplit (pyStrip line)).length - 3)).drop 1).length := by
    simp only [List.length_drop, List.length_take]
    omega
  obtain ⟨t, ht⟩ := List.exists_mem_of_ne_nil _ (List.length_pos.mp hmidlen)
  have htp : t ∈ pySplit (pyStrip line) :=
    List.take_subset _ _ (List.drop_subset _ _ ht)
  obtain ⟨hne, hchars⟩ := pySplit_tokens _ t htp
  obtain ⟨c, hc⟩ := List.exists_mem_of_ne_nil t hne
  exact hasNW_clean ⟨c, mem_joinSp _ t ht hc, hchars c hc⟩

theorem stepLine_pres (pdf : Str) (Q : TransactionRecord → Prop)
    (hnew : ∀ acct line, is_valid_transaction line = true → Q (mkRecord pdf acct line))
    (happ : ∀ (r : TransactionRecord) (line : Str), Q r →
        Q { r with description := clean_description (r.description ++ ' ' :: pyStrip line) })
    (acct : Str) (st : Option TransactionRecord × List TransactionRecord) (line : Str)
    (h1 : ∀ r, st.1 = some r → Q r) (h2 : ∀ r ∈ st.2, Q r) :
    (∀ r, (stepLine pdf acct st line).1 = some r → Q r)
    ∧ (∀ r ∈ (stepLine pdf acct st line).2, Q r) := by
  obtain ⟨cur, out⟩ := st
  by_cases hv : is_valid_transaction line = true
  · constructor
    · intro r hr
      simp only [stepLine, hv, if_pos] at hr
      have : mkRecord pdf acct line = r := Option.some.inj hr
      exact this ▸ hnew acct line hv
    · intro r hr
      simp only [stepLine, hv, if_pos] at hr
      cases cur with
      | none => exact h2 r (by simpa using hr)
      | some c =>
        simp only at hr
        rcases List.mem_append.mp hr with h | h
        · exact h2 r h
        · rw [List.mem_singleton.mp h] at *
          exact h1 c rfl
  · have hbranch :
        stepLine pdf acct (cur, out) line = (cur, out)
        ∨ ∃ c, cur = some c ∧ stepLine pdf acct (cur, out) line
            = (some { c with description :=
                clean_description (c.description ++ ' ' :: pyStrip line) }, out) := by
      cases cur with
      | none => left; simp [stepLine, hv]
      | some c =>
        simp only [stepLine, hv]
        by_cases hc : containsSub endingBalanceMarker line = true
        · left; simp [hc]
        · simp only [Bool.not_eq_true] at hc
          by_cases hm : matchesFooterRegex line = true
          · left; simp [hc, hm]
          · simp only [Bool.not_eq_true] at hm
            by_cases hl : 1 < (pyStrip line).length
            · right; exact ⟨c, rfl, by simp [hc, hm, hl]⟩
            · left; simp [hc, hm, hl]
    rcases hbranch with h | ⟨c, hcur, h⟩
    · rw [h]; exact ⟨h1, h2⟩
    · rw [h]
      refine ⟨?_, h2⟩
      intro r hr
      simp only [Option.some.injEq] at hr
      rw [← hr]
      exact happ c line (h1 c hcur)

theorem foldl_pres (pdf : Str) (Q : TransactionRecord → Prop)
    (hnew : ∀ acct line, is_valid_transaction line = true → Q (mkRecord pdf acct line))
    (happ : ∀ (r : TransactionRecord) (line : Str), Q r →
        Q { r with description := clean_description (r.description ++ ' ' :: pyStrip line) })
    (acct : Str) : ∀ (lines : List Str) (st : Option TransactionRecord × List TransactionRecord),
    (∀ r, st.1 = some r → Q r) → (∀ r ∈ st.2, Q r) →
    (∀ r, (List.foldl (stepLine pdf acct) st lines).1 = some r → Q r)
    ∧ (∀ r ∈ (List.foldl (stepLine pdf acct) st lines).2, Q r) := by
  intro lines
  induction lines with
  | nil => intro st h1 h2; exact ⟨h1, h2⟩
  | cons l ls ih =>
    intro st h1 h2
    have hst := stepLine_pres pdf Q hnew happ acct st l h1 h2
    exact ih (stepLine pdf acct st l) hst.1 hst.2

theorem processPage_pres (pdf : Str) (Q : TransactionRecord → Prop)
    (hnew : ∀ acct line, is_valid_transaction line = true → Q (mkRecord pdf acct line))
    (happ : ∀ (r : TransactionRecord) (line : Str), Q r →
        Q { r with description := clean_description (r.description ++ ' ' :: pyStrip line) })
    (acct : Str) (trans : List TransactionRecord) (lines : List Str)
    (h2 : ∀ r ∈ trans, Q r) : ∀ r ∈ processPage pdf acct trans lines, Q r := by
  have h := foldl_pres pdf Q hnew happ acct lines (none, trans) (by simp) h2
  unfold processPage
  rcases hfin : List.foldl (stepLine pdf acct) (none, trans) lines with ⟨cur, out⟩
  rw [hfin] at h
  cases cur with
  | none => exact h.2
  | some c =>
    intro r hr
    simp only at hr
    rcases List.mem_append.mp hr with hm | hm
    · exact h.2 r hm
    · rw [List.mem_singleton.mp hm]
      exact h.1 c rfl

theorem parsePages_pres (pdf : Str) (Q : TransactionRecord → Prop)
    (hnew : ∀ acct line, is_valid_transaction line = true → Q (mkRecord pdf acct line))
    (happ : ∀ (r : TransactionRecord) (line : Str), Q r →
        Q { r with description := clean_description (r.description ++ ' ' :: pyStrip line) }) :
    ∀ (pages : List (Option Str)) (acct : Str) (trans : List TransactionRecord),
    (∀ r ∈ trans, Q r) → ∀ r ∈ parsePages pdf acct trans pages, Q r := by
  intro pages
  induction pages with
  | nil => intro acct trans h2; simpa [parsePages] using h2
  | cons p ps ih =>
    intro acct trans h2
    cases p with
    | none => simpa [parsePages] using ih acct trans h2
    | some text =>
      by_cases htext : text = []
      · subst htext
        simpa [parsePages] using ih acct trans h2
      · simp only [parsePages, if_neg htext]
        exact ih _ _ (processPage_pres pdf Q hnew happ _ trans _ h2)

/-- C7: every record in the output of the parser has a non-empty
description: a start line has at least five tokens, so at least one
non-whitespace token lies between the date and the three amount columns,
and continuation appends with renormalization preserve the presence of a
non-whitespace character. -/
theorem C7_description_nonempty (pdf : Str) (pages : List (Option Str)) :
    ∀ r ∈ parse_ally_statement pdf pages, r.description ≠ [] := by
  intro r hr
  refine hasNW_ne_nil (parsePages_pres pdf (fun r => hasNW r.description)
    (fun acct line hv => mkRecord_description_hasNW pdf acct hv)
    (fun r line hq => hasNW_clean (hasNW_append_left hq))
    pages (lit "Unknown") [] (by simp) r hr)

theorem C7_description_nonempty_witness :
    ({ date := lit "01/15/2024", description := lit "COFFEE SHOP",
       credit := some (PyNum.num (mkRat 9 2)), debit := some (PyNum.num 0),
       account_number := lit "Unknown",
       source_file := lit "a.pdf" } : TransactionRecord).description ≠ [] :=
  C7_description_nonempty (lit "a.pdf") [some coffeeLine] _ (by decide)

/-- C8 counterexample: on a start line whose credit column token is
"-4.50", the assembler produces a record whose credit is present and
strictly negative, so the claimed non-negativity of present credits fails
on the code. -/
theorem C8_nonneg_credit_cex :
    (parse_ally_statement (lit "n.pdf")
        [some (lit "01/15/2024 FOO X -4.50 0.00 1,200.00")]).map TransactionRecord.credit
      = [some (PyNum.num (-mkRat 9 2))]
    ∧ -mkRat 9 2 < (0 : ℚ) := by
  refine ⟨by decide, by decide⟩

/-- C8 amended: every record the assembler produces carries exactly the
amounts the extractor computed from some accepted start line — the credit
is always present and equals the extracted value, but it is not
guaranteed to be non-negative (no sign check is performed). -/
theorem C8_credit_provenance (pdf : Str) (pages : List (Option Str)) :
    ∀ r ∈ parse_ally_statement pdf pages,
      (∃ l, is_valid_transaction l = true
        ∧ r.credit = (extract_amounts l).1 ∧ r.debit = (extract_amounts l).2)
      ∧ r.credit.isSome = true := by
  intro r hr
  have h := parsePages_pres pdf
    (fun r => ∃ l, is_valid_transaction l = true
        ∧ r.credit = (extract_amounts l).1 ∧ r.debit = (extract_amounts l).2)
    (fun acct line hv => ⟨line, hv, rfl, rfl⟩)
    (fun r line hq => hq)
    pages (lit "Unknown") [] (by simp) r hr
  obtain ⟨l, hv, hc, hd⟩ := h
  refine ⟨⟨l, hv, hc, hd⟩, ?_⟩
  rw [hc]
  exact (valid_amounts_isSome hv).1

theorem C8_credit_provenance_witness :
    ((∃ l, is_valid_transaction l = true
        ∧ ({ date := lit "01/15/2024", description := lit "COFFEE SHOP",
             credit := some (PyNum.num (mkRat 9 2)), debit := some (PyNum.num 0),
             account_number := lit "Unknown",
             source_file := lit "a.pdf" } : TransactionRecord).credit = (extract_amounts l).1
        ∧ ({ date := lit "01/15/2024", description := lit "COFFEE SHOP",
             credit := some (PyNum.num (mkRat 9 2)), debit := some (PyNum.num 0),
             account_number := lit "Unknown",
             source_file := lit "a.pdf" } : TransactionRecord).debit = (extract_amounts l).2)
      ∧ ({ date := lit "01/15/2024", description := lit "COFFEE SHOP",
           credit := some (PyNum.num (mkRat 9 2)), debit := some (PyNum.num 0),
           account_number := lit "Unknown",
           source_file := lit "a.pdf" } : TransactionRecord).credit.isSome = true) :=
  C8_credit_provenance (lit "a.pdf") [some coffeeLine] _ (by decide)

theorem space_not_digit {c : Char} (h : pyIsSpace c = true) : c.isDigit = false := by
  rcases of_decide_eq_true h with h1 | h1 | h1 | h1 | h1 | h1 <;> subst h1 <;> decide

theorem digit_not_space {c : Char} (h : c.isDigit = true) : pyIsSpace c = false := by
  cases hs : pyIsSpace c with
  | false => rfl
  | true => rw [space_not_digit hs] at h; cases h

theorem digit_ne_slash {c : Char} (h : c.isDigit = true) : c ≠ '/' := by
  intro he
  subst he
  exact absurd h (by decide)

theorem takeWhile_append_all {p : Char → Bool} :
    ∀ (xs ys : Str), (∀ c ∈ xs, p c = true) →
      List.takeWhile p (xs ++ ys) = xs ++ List.takeWhile p ys := by
  intro xs
  induction xs with
  | nil => intro ys _; rfl
  | cons x xs' ih =>
    intro ys h
    rw [List.cons_append, List.takeWhile_cons, if_pos (h x (List.mem_cons_self x xs'))]
    rw [ih ys (fun c hc => h c (List.mem_cons_of_mem x hc)), List.cons_append]

theorem dropWhile_append_all {p : Char → Bool} :
    ∀ (xs ys : Str), (∀ c ∈ xs, p c = true) →
      List.dropWhile p (xs ++ ys) = List.dropWhile p ys := by
  intro xs
  induction xs with
  | nil => intro ys _; rfl
  | cons x xs' ih =>
    intro ys h
    rw [List.cons_append, List.dropWhile_cons, if_pos (h x (List.mem_cons_self x xs'))]
    exact ih ys (fun c hc => h c (List.mem_cons_of_mem x hc))

theorem pySplitAux_space_skip :
    ∀ (ws : Str), (∀ c ∈ ws, pyIsSpace c = true) →
      ∀ s : Str, pySplitAux (ws ++ s) [] = pySplitAux s [] := by
  intro ws
  induction ws with
  | nil => intro _ s; rfl
  | cons w ws' ih =>
    intro h s
    rw [List.cons_append]
    show pySplitAux (w :: (ws' ++ s)) [] = pySplitAux s []
    simp only [pySplitAux, if_pos (h w (List.mem_cons_self w ws'))]
    exact ih (fun c hc => h c (List.mem_cons_of_mem w hc)) s

theorem pySplitAux_token_head :
    ∀ (s acc : Str), acc ≠ [] →
      ∃ ts, pySplitAux s acc
        = (acc.reverse ++ s.takeWhile (fun c => !pyIsSpace c)) :: ts := by
  intro s
  induction s with
  | nil =>
    intro acc hacc
    refine ⟨[], ?_⟩
    cases acc with
    | nil => exact absurd rfl hacc
    | cons a as => simp [pySplitAux]
  | cons c cs ih =>
    intro acc hacc
    by_cases hc : pyIsSpace c = true
    · refine ⟨pySplitAux cs [], ?_⟩
      cases acc with
      | nil => exact absurd rfl hacc
      | cons a as =>
        simp only [pySplitAux, if_pos hc]
        rw [List.takeWhile_cons, if_neg (by rw [hc]; decide)]
        simp
    · obtain ⟨ts, hts⟩ := ih (c :: acc) (by simp)
      refine ⟨ts, ?_⟩
      simp only [pySplitAux, if_neg hc]
      rw [hts, List.takeWhile_cons, if_pos (by rw [Bool.not_eq_true] at hc; rw [hc]; decide)]
      simp

theorem pySplitAux_all_space :
    ∀ (v : Str), (∀ c ∈ v, pyIsSpace c = true) →
      ∀ acc : Str, pySplitAux v acc = pySplitAux [] acc := by
  intro v
  induction v with
  | nil => intro _ acc; rfl
  | cons w v' ih =>
    intro h acc
    have hw := h w (List.mem_cons_self w v')
    have ih' := ih (fun c hc => h c (List.mem_cons_of_mem w hc))
    cases acc with
    | nil =>
      simp only [pySplitAux, if_pos hw]
      exact ih' []
    | cons a as =>
      simp only [pySplitAux, if_pos hw]
      rw [ih' []]
      rfl

theorem pySplitAux_append_trailing :
    ∀ (v : Str), (∀ c ∈ v, pyIsSpace c = true) →
      ∀ (s acc : Str), pySplitAux (s ++ v) acc = pySplitAux s acc := by
  intro v hv s
  induction s with
  | nil =>
    intro acc
    exact pySplitAux_all_space v hv acc
  | cons c cs ih =>
    intro acc
    by_cases hc : pyIsSpace c = true
    · cases acc with
      | nil =>
        simp only [List.cons_append, pySplitAux, if_pos hc]
        exact ih []
      | cons a as =>
        simp only [List.cons_append, pySplitAux, if_pos hc]
        rw [List.append_eq, ih []]
    · simp only [List.cons_append, pySplitAux, if_neg hc]
      exact ih (c :: acc)

theorem pySplit_pyStrip (s : Str) : pySplit (pyStrip s) = pySplit s := by
  unfold pySplit pyStrip
  have hR : pySplitAux s [] = pySplitAux (s.dropWhile pyIsSpace) [] := by
    conv_lhs => rw [← List.takeWhile_append_dropWhile pyIsSpace s]
    exact pySplitAux_space_skip _ (fun c hc => List.mem_takeWhile_imp hc) _
  have hdecomp : s.dropWhile pyIsSpace
      = ((s.dropWhile pyIsSpace).reverse.dropWhile pyIsSpace).reverse
        ++ ((s.dropWhile pyIsSpace).reverse.takeWhile pyIsSpace).reverse := by
    conv_lhs =>
      rw [← List.reverse_reverse (s.dropWhile pyIsSpace),
        ← List.takeWhile_append_dropWhile pyIsSpace (s.dropWhile pyIsSpace).reverse]
    rw [List.reverse_append]
  have hL : pySplitAux (s.dropWhile pyIsSpace) []
      = pySplitAux (((s.dropWhile pyIsSpace).reverse.dropWhile pyIsSpace).reverse) [] := by
    conv_lhs => rw [hdecomp]
    refine pySplitAux_append_trailing _ ?_ _ []
    intro c hc
    exact List.mem_takeWhile_imp (List.mem_reverse.mp hc)
  rw [hR, hL]

theorem splitOnChar_no_sep_append {sep : Char} :
    ∀ (xs ys : Str), (∀ c ∈ xs, c ≠ sep) →
      splitOnChar sep (xs ++ sep :: ys) = xs :: splitOnChar sep ys := by
  intro xs
  induction xs with
  | nil =>
    intro ys _
    simp [splitOnChar]
  | cons x xs' ih =>
    intro ys h
    rw [List.cons_append]
    simp only [splitOnChar, if_neg (h x (List.mem_cons_self x xs'))]
    rw [ih ys (fun c hc => h c (List.mem_cons_of_mem x hc))]

theorem length_dropWhile_append_cons {p : Char → Bool} {c : Char} (hc : p c = false) :
    ∀ (A B : Str), B.length + 1 ≤ (List.dropWhile p (A ++ c :: B)).length := by
  intro A
  induction A with
  | nil =>
    intro B
    rw [List.nil_append, List.dropWhile_cons, if_neg (by rw [hc]; exact Bool.false_ne_true)]
    simp
  | cons a A' ih =>
    intro B
    rw [List.cons_append, List.dropWhile_cons]
    by_cases ha : p a = true
    · rw [if_pos ha]
      exact ih B
    · rw [if_neg ha]
      simp only [List.length_cons, List.length_append, List.length_cons]
      omega

/-- C10 amended: the footer test reads the raw line while the append test
reads the stripped line — a continuation line beginning with whitespace,
then six digits and a slash, is not matched by the footer pattern and
(provided it does not contain the Ending Balance marker, which is checked
first) is appended, stripped, to the open record's description. -/
theorem C10_raw_footer_append (pdf acct : Str) (r : TransactionRecord)
    (out : List TransactionRecord) (w : Char) (ws d6 rest : Str)
    (hw : pyIsSpace w = true)
    (hws : ∀ c ∈ ws, pyIsSpace c = true)
    (h6 : d6.length = 6)
    (hd : ∀ c ∈ d6, c.isDigit = true)
    (hnb : containsSub endingBalanceMarker (w :: ws ++ (d6 ++ '/' :: rest)) = false) :
    stepLine pdf acct (some r, out) (w :: ws ++ (d6 ++ '/' :: rest))
      = (some { r with description :=
            clean_description (r.description ++ ' ' :: pyStrip (w :: ws ++ (d6 ++ '/' :: rest))) },
         out) := by
  cases d6 with
  | nil => simp at h6
  | cons d0 d6' =>
  have hd0 : d0.isDigit = true := hd d0 (List.mem_cons_self d0 d6')
  have hd' : ∀ c ∈ d6', c.isDigit = true := fun c hc => hd c (List.mem_cons_of_mem d0 hc)
  have hallws : ∀ c ∈ w :: ws, pyIsSpace c = true := by
    intro c hc
    rcases List.mem_cons.mp hc with h | h
    · subst h; exact hw
    · exact hws c h
  have hldrop : (w :: ws ++ ((d0 :: d6') ++ '/' :: rest)).dropWhile pyIsSpace
      = (d0 :: d6') ++ '/' :: rest := by
    rw [dropWhile_append_all (w :: ws) ((d0 :: d6') ++ '/' :: rest) hallws,
      List.cons_append, List.dropWhile_cons,
      if_neg (by rw [digit_not_space hd0]; exact Bool.false_ne_true), ← List.cons_append]
  have hd0ns : pyIsSpace d0 = false := digit_not_space hd0
  have htok : ∃ ts, pySplit (w :: ws ++ ((d0 :: d6') ++ '/' :: rest))
      = ((d0 :: d6') ++ '/' :: rest.takeWhile (fun c => !pyIsSpace c)) :: ts := by
    unfold pySplit
    rw [pySplitAux_space_skip (w :: ws) hallws ((d0 :: d6') ++ '/' :: rest),
      List.cons_append]
    simp only [pySplitAux, hd0ns, Bool.false_eq_true, if_false]
    obtain ⟨ts, hts⟩ := pySplitAux_token_head (d6' ++ '/' :: rest) [d0] (by simp)
    refine ⟨ts, ?_⟩
    have hslash : (fun c => !pyIsSpace c) '/' = true := by decide
    rw [hts, takeWhile_append_all d6' ('/' :: rest)
        (fun c hc => by simp [digit_not_space (hd' c hc)]),
      List.takeWhile_cons, if_pos hslash]
    simp
  have hstart : starts_with_valid_date (w :: ws ++ ((d0 :: d6') ++ '/' :: rest)) = false := by
    obtain ⟨ts, hts⟩ := htok
    unfold starts_with_valid_date
    rw [pySplit_pyStrip, hts]
    show validDate ((d0 :: d6') ++ '/' :: rest.takeWhile (fun c => !pyIsSpace c)) = false
    unfold validDate
    rw [splitOnChar_no_sep_append (d0 :: d6') (rest.takeWhile (fun c => !pyIsSpace c))
        (fun c hc => digit_ne_slash (hd c hc))]
    rcases hsp : splitOnChar '/' (rest.takeWhile (fun c => !pyIsSpace c))
      with _ | ⟨x, _ | ⟨y, _ | ⟨z, zs⟩⟩⟩
    · rfl
    · rfl
    · show (monthOk (d0 :: d6')
          && dayOk x (digitsToNat (d0 :: d6')) (digitsToNat y) && yearOk y) = false
      have hm : monthOk (d0 :: d6') = false := by
        unfold monthOk
        rw [h6]
        simp
      rw [hm]
      simp
    · rfl
  have hvalid : is_valid_transaction (w :: ws ++ ((d0 :: d6') ++ '/' :: rest)) = false := by
    unfold is_valid_transaction
    rw [hstart]
    simp
  have hfoot : matchesFooterRegex (w :: ws ++ ((d0 :: d6') ++ '/' :: rest)) = false := by
    unfold matchesFooterRegex
    rw [List.cons_append, List.take_succ_cons, List.all_cons, space_not_digit hw]
    simp
  have hlen : 1 < (pyStrip (w :: ws ++ ((d0 :: d6') ++ '/' :: rest))).length := by
    unfold pyStrip
    rw [hldrop, List.length_reverse]
    have hrev : ((d0 :: d6') ++ '/' :: rest).reverse
        = rest.reverse ++ '/' :: (d0 :: d6').reverse := by
      rw [List.reverse_append, List.reverse_cons, List.append_assoc, List.singleton_append]
    rw [hrev]
    have h7 := length_dropWhile_append_cons (by decide : pyIsSpace '/' = false)
      rest.reverse (d0 :: d6').reverse
    rw [List.length_reverse] at h7
    rw [h6] at h7
    omega
  simp only [List.cons_append] at hvalid hnb hfoot hlen ⊢
  simp [stepLine, hvalid, hnb, hfoot, hlen]

theorem C10_raw_footer_append_witness :
    stepLine (lit "p.pdf") (lit "A") (some demoRec, []) (lit " 123456/02")
      = (some { demoRec with description :=
            clean_description (demoRec.description ++ ' ' :: pyStrip (lit " 123456/02")) },
         []) :=
  C10_raw_footer_append (lit "p.pdf") (lit "A") demoRec [] ' ' [] (lit "123456") (lit "02")
    (by decide) (by decide) (by decide) (by decide) (by decide)

/-- C10 counterexample: the continuation line " 123456/Ending Balance x"
begins with whitespace, six digits and a slash, yet it is not appended —
it is discarded by the Ending Balance check, which precedes the footer
check — so the claim needs the no-marker proviso. -/
theorem C10_raw_footer_cex :
    stepLine (lit "p.pdf") (lit "A") (some demoRec, []) (lit " 123456/Ending Balance x")
      = (some demoRec, [])
    ∧ clean_description (demoRec.description ++ ' ' :: pyStrip (lit " 123456/Ending Balance x"))
        ≠ demoRec.description := by
  refine ⟨by decide, by decide⟩
